import Mathlib

/-!
Verification of the multiprocessing engine in `dredge/multi.py`: the
partitioner (`get_num_tasks`, `get_multiprocess_slice_ranges`,
`sort_file_paths_for_load_balancing`), the dispatcher (`do_multi_process`),
the csv worker task (`_dump_into_csv_task`), the merger (`merge_csv_files`)
and the pipeline orchestrator (`do_multi_parse_to_csv`).

The Python code is embedded shallowly: file contents are passed as values, the
filesystem is a function from paths to optional file contents, machine-level
effects (process spawning, queues) are replaced by explicit sequencing, and
Python exceptions become `Except` errors.  Python's (arbitrary-precision,
signed) integers are `Int` where a difference can go negative and `Nat`
elsewhere; `/` and `%` on non-negative Python ints agree with `Nat.div` and
`Nat.mod`.
-/

namespace Dredge

/-- A csv row: one list of string cells. -/
abbrev Row := List String

/-- A parsed record (a Python namedtuple): its field names (`_fields`) and its
field values. -/
structure Record where
  fields : List String
  values : List String
deriving DecidableEq

/-- Outcome of invoking the user parser on one file: the parser may throw
(`raise`, carrying the formatted traceback), return a single namedtuple
(`single`), or return a collection of namedtuples (`coll`). -/
inductive ParseResult where
  | raise (tb : String)
  | single (r : Record)
  | coll (rs : List Record)
deriving DecidableEq

/-- Python exceptions surfaced by the modelled code paths. -/
inductive PyError where
  | zeroDivisionError
  | ioError
  | stopIteration
  | indexError
  | raised (tb : String)
deriving DecidableEq

/-- The two worker-local artifacts written by `_dump_into_csv_task`. -/
structure WorkerFiles where
  outRows : List Row
  errRows : List Row
deriving DecidableEq

/-- `get_num_tasks` from src/multi.py, with the module-level `CPU_COUNT`
global passed explicitly: `min(max(CPU_COUNT - cores_to_reserve, 1),
len(data))`.  The subtraction is on Python signed integers, hence `Int`. -/
def get_num_tasks (cpuCount cores_to_reserve : Nat) (data : List α) : Nat :=
  min (max ((cpuCount : Int) - (cores_to_reserve : Int)) 1).toNat data.length

/-- The tuple built by `get_multiprocess_slice_ranges`, with
`slice_size = data_count / num_tasks` and `remainder = data_count % num_tasks`:
entry `x` is `(x*slice_size + (x if x < remainder else remainder),
(x+1)*slice_size + (x+1 if x < remainder else remainder))`. -/
def sliceList (num_tasks data_count : Nat) : List (Nat × Nat) :=
  let slice_size := data_count / num_tasks
  let remainder := data_count % num_tasks
  (List.range num_tasks).map fun x =>
    (x * slice_size + (if x < remainder then x else remainder),
     (x + 1) * slice_size + (if x < remainder then x + 1 else remainder))

/-- `get_multiprocess_slice_ranges` from src/multi.py.  Python raises
`ZeroDivisionError` at `data_count / num_tasks` when `num_tasks = 0`; that
exception is the `Except.error` case. -/
def get_multiprocess_slice_ranges (num_tasks data_count : Nat) :
    Except PyError (List (Nat × Nat)) :=
  if num_tasks = 0 then .error .zeroDivisionError
  else .ok (sliceList num_tasks data_count)

/-- Insert an item into a list already sorted by decreasing `size`, in front
of the first element whose size does not exceed its own (so an incoming item
goes before the items of equal size already present). -/
def insertDesc (size : α → Nat) (x : α) : List α → List α
  | [] => [x]
  | y :: ys => if size y ≤ size x then x :: y :: ys else y :: insertDesc size x ys

/-- The stable descending sort performed by
`sorted(file_paths, cmp=lambda x, y: -cmp(os.stat(x).st_size, os.stat(y).st_size))`
in `sort_file_paths_for_load_balancing`; `size` models `os.stat(·).st_size`.
Python's sort is stable; `sortDesc` is proved below to be a permutation,
sorted by decreasing size, and stable, which characterises the stable
descending sort uniquely. -/
def sortDesc (size : α → Nat) : List α → List α
  | [] => []
  | x :: xs => insertDesc size x (sortDesc size xs)

/-- Fuel-indexed worker for `chunkList`; the fuel bounds the number of loop
iterations (the list length suffices, as every iteration consumes at least one
element). -/
def chunkListF (t : Nat) : Nat → List α → List (List α)
  | 0, _ => []
  | _, [] => []
  | fuel + 1, x :: xs => (x :: xs.take (t - 1)) :: chunkListF t fuel (xs.drop (t - 1))

/-- The row structure walked by `for i in xrange(0, len(file_paths),
task_count)` in `sort_file_paths_for_load_balancing`: the list cut into
consecutive pieces of length `task_count` (the last piece may be shorter).
Exercised only with `task_count ≥ 1`; a zero step would raise `ValueError` in
Python and `get_num_tasks` yields `0` only for empty input. -/
def chunkList (t : Nat) (xs : List α) : List (List α) :=
  chunkListF t xs.length xs

/-- `sort_file_paths_for_load_balancing` from src/multi.py: sort by decreasing
size; then, for each chunk start `i` and each `0 ≤ j < task_count`,
`sorted_file_paths[j].append(file_paths[i + j])` with an `IndexError` past the
end swallowed — bucket `j` collects the `j`-th element of every chunk — and
finally `itertools.chain.from_iterable` concatenates the buckets in bucket
order. -/
def sort_file_paths_for_load_balancing (size : α → Nat) (file_paths : List α)
    (task_count : Nat) : List α :=
  let sorted := sortDesc size file_paths
  (List.range task_count).flatMap fun j =>
    (chunkList task_count sorted).filterMap fun row => row[j]?

/-- Modelled from the spec (reference definition for the load-balancing
refinement claim): sort items descending by size, deal item `i` of the sorted
list into bucket `i mod taskCount`, preserving traversal order within each
bucket, then concatenate the buckets in bucket order. -/
def loadBalanceSpec (size : α → Nat) (items : List α) (task_count : Nat) :
    List α :=
  let sorted := sortDesc size items
  (List.range task_count).flatMap fun j =>
    ((List.range sorted.length).filter fun i => i % task_count == j).filterMap
      fun i => sorted[i]?

/-- `do_multi_process` from src/multi.py: compute the task count and the slice
ranges, run the task once per slice with its `_task_index`, and collect one
result per task.  Results arrive on the queue in completion order; the model
lists them in task-index order (no verified claim depends on result order). -/
def do_multi_process (data : List α) (task : List α → Nat → Nat → Nat → β)
    (cpuCount cores_to_reserve : Nat) : Except PyError (List β) := do
  let num_tasks := get_num_tasks cpuCount cores_to_reserve data
  let slice_ranges ← get_multiprocess_slice_ranges num_tasks data.length
  .ok (slice_ranges.enum.map fun p => task data p.2.1 p.2.2 p.1)

/-- Rows appended to the worker's output artifact for one parsed file: one row
of field values for a single namedtuple (`writerow`), one row per record of a
returned collection (`writerows`), nothing when the parser raised. -/
def outRowsOf (parse : String → ParseResult) (p : String) : List Row :=
  match parse p with
  | .raise _ => []
  | .single r => [r.values]
  | .coll rs => rs.map Record.values

/-- The row appended to the worker's error artifact for one file:
`[file_path, traceback]` when the parser raised, nothing otherwise. -/
def errRowOf (parse : String → ParseResult) (p : String) : Option Row :=
  match parse p with
  | .raise tb => some [p, tb]
  | _ => none

/-- The per-item loop of `_dump_into_csv_task` over a slice of files,
returning the rows appended to the output artifact and to the error artifact:
for each file, invoke the parser; on an exception append `[file_path,
traceback]` to the error artifact and `continue`, otherwise append the
record's values (or each record's values) to the output artifact. -/
def dumpRows (parse : String → ParseResult) : List String → List Row × List Row
  | [] => ([], [])
  | p :: ps =>
    let rest := dumpRows parse ps
    match parse p with
    | .raise tb => (rest.1, [p, tb] :: rest.2)
    | .single r => (r.values :: rest.1, rest.2)
    | .coll rs => (rs.map Record.values ++ rest.1, rest.2)

/-- `_dump_into_csv_task` from src/multi.py on a fresh run (no pre-existing
artifacts): create the worker's csv, writing `csv_headers` first when given,
and its error log with header row `['file', 'error']`, then process
`file_paths[i]` for `i` in `xrange(slice_start, slice_end)`.  The task index
only names the two files and the queue only carries the csv path; the model
returns the two artifacts' contents instead. -/
def dump_into_csv_task (parse : String → ParseResult) (file_paths : List String)
    (slice_start slice_end : Nat) (csv_headers : Option (List String)) :
    WorkerFiles :=
  let slice := (file_paths.drop slice_start).take (slice_end - slice_start)
  let body := dumpRows parse slice
  { outRows := (match csv_headers with | some h => [h] | none => []) ++ body.1
    errRows := ["file", "error"] :: body.2 }

/-- The dedup loop body of `merge_csv_files` when `entry_class` is supplied:
a row whose id is already in `ids` is dropped, otherwise it is written and its
id added to the set (modelled as a list).  `idOf` models
`entry_class(*row).id`. -/
def dedupGo (idOf : Row → String) : List Row → List String → List Row × List String
  | [], ids => ([], ids)
  | r :: rs, ids =>
    if idOf r ∈ ids then dedupGo idOf rs ids
    else
      let rest := dedupGo idOf rs (idOf r :: ids)
      (r :: rest.1, rest.2)

/-- Body processing for one input file of `merge_csv_files`: the plain copy
loop of the `entry_class is None` branch, or the dedup loop otherwise. -/
def processBody (dedup : Bool) (idOf : Row → String) (rows : List Row)
    (ids : List String) : List Row × List String :=
  if dedup then dedupGo idOf rows ids else (rows, ids)

/-- The loop of `merge_csv_files` over `input_paths`, threading
`are_headers_written` (`hw`) and the `ids` set.  Opening a missing or
unreadable file raises `IOError`; `reader.next()` on an empty file raises
`StopIteration`. -/
def mergeFilesGo (fs : ι → Option (List Row)) (include_headers dedup : Bool)
    (idOf : Row → String) : List ι → Bool → List String → Except PyError (List Row)
  | [], _, _ => .ok []
  | p :: ps, hw, ids =>
    match fs p with
    | none => .error .ioError
    | some rows =>
      match include_headers, rows with
      | true, [] => .error .stopIteration
      | true, h :: body =>
        let proc := processBody dedup idOf body ids
        (mergeFilesGo fs include_headers dedup idOf ps true proc.2).map
          fun rest => (if hw then ([] : List Row) else [h]) ++ proc.1 ++ rest
      | false, rows =>
        let proc := processBody dedup idOf rows ids
        (mergeFilesGo fs include_headers dedup idOf ps hw proc.2).map
          fun rest => proc.1 ++ rest

/-- `merge_csv_files` from src/multi.py.  The filesystem is the function `fs`
(`none` = the path cannot be opened); the delimiter only affects row
serialisation and is not modelled; the result is the list of rows written to
`output_path`.  `entry_class` carries the namedtuple class, modelled by its
field names; `idOf` models reading `.id` off `entry_class(*row)`. -/
def merge_csv_files (fs : ι → Option (List Row)) (input_paths : List ι)
    (include_headers : Bool) (entry_class : Option (List String))
    (idOf : Row → String) : Except PyError (List Row) :=
  mergeFilesGo fs include_headers entry_class.isSome idOf input_paths false []

/-- Truthiness of a parser return value under `while not test_entry`: a
namedtuple is falsy iff it has no fields (it is an empty tuple), a collection
is falsy iff it is empty; a raised exception never reaches the test. -/
def parseFalsy : ParseResult → Bool
  | .single r => r.fields.isEmpty
  | .coll rs => rs.isEmpty
  | .raise _ => false

/-- The headers a truthy parser return value yields in `do_multi_parse_to_csv`:
`test_entry._fields` for a namedtuple, `test_entry[0]._fields` for a non-empty
collection; `none` when the value is falsy or an exception was raised. -/
def parseHeaders : ParseResult → Option (List String)
  | .single r => if r.fields.isEmpty then none else some r.fields
  | .coll [] => none
  | .coll (r :: _) => some r.fields
  | .raise _ => none

/-- The header-probing loop of `do_multi_parse_to_csv`:
`while not test_entry: test_entry = parser_func(sorted_file_paths[i]); i += 1`.
A raised parser exception propagates; walking past the end of the list raises
`IndexError`. -/
def probeHeaders (parse : String → ParseResult) : List String →
    Except PyError (List String)
  | [] => .error .indexError
  | p :: ps =>
    match parse p with
    | .raise tb => .error (.raised tb)
    | .single r => if r.fields.isEmpty then probeHeaders parse ps else .ok r.fields
    | .coll [] => probeHeaders parse ps
    | .coll (r :: _) => .ok r.fields

/-- `do_multi_parse_to_csv` from src/multi.py, run against a fresh output
directory.  `size` models `os.stat(·).st_size`, `parse` the user parser,
`idOf` the `.id` attribute of a row rebuilt through the record class, and
`cpuCount` the `CPU_COUNT` global.  The record class `cls` and `csv_headers`
are both derived from the probed record, so both are modelled by the probed
field names.  Worker `i` writes `'%s-%i.csv'` and `'%s-%i-errors.csv'`, which
the two merges then read back for `i` in `xrange(task_count)`.  The result is
the contents of the final output csv and of the final error csv; directory
creation and intermediate-file deletion do not affect those contents and are
not modelled. -/
def do_multi_parse_to_csv (size : String → Nat) (parse : String → ParseResult)
    (idOf : Row → String) (file_paths : List String)
    (cpuCount cores_to_reserve : Nat) (are_ids_unique include_headers : Bool) :
    Except PyError (List Row × List Row) := do
  let task_count := get_num_tasks cpuCount cores_to_reserve file_paths
  let sorted_file_paths := sort_file_paths_for_load_balancing size file_paths task_count
  let clsHeaders ←
    if include_headers then
      (probeHeaders parse sorted_file_paths).map fun hs =>
        ((some hs : Option (List String)), (some hs : Option (List String)))
    else .ok (none, none)
  let workerFiles ← do_multi_process sorted_file_paths
    (fun d s e _ => dump_into_csv_task parse d s e clsHeaders.2)
    cpuCount cores_to_reserve
  let finalOut ← merge_csv_files (fun i => (workerFiles[i]?).map WorkerFiles.outRows)
    (List.range task_count) include_headers
    (if are_ids_unique then clsHeaders.1 else none) idOf
  let finalErr ← merge_csv_files (fun i => (workerFiles[i]?).map WorkerFiles.errRows)
    (List.range task_count) true none idOf
  .ok (finalOut, finalErr)

/-! ### Partitioner: helper lemmas -/

theorem sliceList_eq_map_min (t n : Nat) :
    sliceList t n = (List.range t).map (fun x =>
      (x * (n / t) + min x (n % t), (x + 1) * (n / t) + min (x + 1) (n % t))) := by
  simp only [sliceList]
  refine List.map_congr_left fun x _ => ?_
  rcases Nat.lt_or_ge x (n % t) with h | h
  · simp only [if_pos h]
    rw [Nat.min_eq_left (Nat.le_of_lt h), Nat.min_eq_left (by omega)]
  · simp only [if_neg (by omega : ¬ x < n % t)]
    rw [Nat.min_eq_right h, Nat.min_eq_right (by omega)]

theorem sliceList_getD (t n i : Nat) (hi : i < t) :
    (sliceList t n).getD i (0, 0) =
      (i * (n / t) + min i (n % t), (i + 1) * (n / t) + min (i + 1) (n % t)) := by
  rw [sliceList_eq_map_min, List.getD_eq_getElem?_getD, List.getElem?_map,
    List.getElem?_range hi]
  rfl

theorem sliceList_length (t n : Nat) : (sliceList t n).length = t := by
  simp [sliceList]

theorem slice_bound_mono (q r : Nat) {i j : Nat} (h : i ≤ j) :
    i * q + min i r ≤ j * q + min j r :=
  Nat.add_le_add (Nat.mul_le_mul_right q h) (min_le_min h (le_refl r))

theorem slice_bound_succ (q r i : Nat) :
    (i + 1) * q + min (i + 1) r =
      (i * q + min i r) + (q + if i < r then 1 else 0) := by
  have hm : (i + 1) * q = i * q + q := Nat.succ_mul i q
  rcases Nat.lt_or_ge i r with h | h
  · rw [if_pos h]; omega
  · rw [if_neg (by omega)]; omega

theorem exists_mem_interval (f : Nat → Nat) :
    ∀ t m : Nat, f 0 ≤ m → m < f t → ∃ i, i < t ∧ f i ≤ m ∧ m < f (i + 1) := by
  intro t
  induction t with
  | zero => intro m h0 ht; omega
  | succ t ih =>
    intro m h0 ht
    by_cases h : f t ≤ m
    · exact ⟨t, Nat.lt_succ_self t, h, ht⟩
    · obtain ⟨i, h1, h2, h3⟩ := ih m h0 (by omega)
      exact ⟨i, by omega, h2, h3⟩

/-- C1: for every `itemCount ≥ 1` and `taskCount` in `[1, itemCount]`,
`get_multiprocess_slice_ranges(taskCount, itemCount)` returns `taskCount`
half-open ranges, in order, that are contiguous, non-overlapping, and cover
`[0, itemCount)` exactly; with `q = itemCount / taskCount` and
`r = itemCount % taskCount`, the first `r` ranges have length `q + 1` and the
remaining ranges have length `q`, so no two ranges differ in length by more
than 1. -/
theorem slice_ranges_partition (n t : Nat) (h1 : 1 ≤ t) (h2 : t ≤ n) :
    ∃ rs, get_multiprocess_slice_ranges t n = Except.ok rs ∧
      rs.length = t ∧
      (rs.getD 0 (0, 0)).1 = 0 ∧
      (rs.getD (t - 1) (0, 0)).2 = n ∧
      (∀ i, i + 1 < t → (rs.getD i (0, 0)).2 = (rs.getD (i + 1) (0, 0)).1) ∧
      (∀ i, i < t → (rs.getD i (0, 0)).1 < (rs.getD i (0, 0)).2 ∧
        (rs.getD i (0, 0)).2 - (rs.getD i (0, 0)).1 =
          if i < n % t then n / t + 1 else n / t) ∧
      (∀ i j, i < j → j < t → (rs.getD i (0, 0)).2 ≤ (rs.getD j (0, 0)).1) ∧
      (∀ m, m < n → ∃ i, i < t ∧ (rs.getD i (0, 0)).1 ≤ m ∧
        m < (rs.getD i (0, 0)).2) ∧
      (∀ i j, i < t → j < t →
        (rs.getD i (0, 0)).2 - (rs.getD i (0, 0)).1 ≤
          ((rs.getD j (0, 0)).2 - (rs.getD j (0, 0)).1) + 1) := by
  have ht0 : t ≠ 0 := by omega
  have hr : n % t < t := Nat.mod_lt n (by omega)
  have hq1 : 1 ≤ n / t := (Nat.one_le_div_iff (by omega)).mpr h2
  have hn : t * (n / t) + n % t = n := Nat.div_add_mod n t
  refine ⟨sliceList t n, ?_, sliceList_length t n, ?_, ?_, ?_, ?_, ?_, ?_, ?_⟩
  · simp [get_multiprocess_slice_ranges, ht0]
  · rw [sliceList_getD t n 0 (by omega)]; simp
  · rw [sliceList_getD t n (t - 1) (by omega)]
    have h : t - 1 + 1 = t := by omega
    rw [h]
    simp only []
    rw [Nat.min_eq_right (Nat.le_of_lt hr)]
    omega
  · intro i hi
    rw [sliceList_getD t n i (by omega), sliceList_getD t n (i + 1) hi]
  · intro i hi
    rw [sliceList_getD t n i hi]
    have h := slice_bound_succ (n / t) (n % t) i
    constructor
    · simp only []
      rcases Nat.lt_or_ge i (n % t) with hc | hc
      · rw [if_pos hc] at h; omega
      · rw [if_neg (by omega)] at h; omega
    · simp only []
      rcases Nat.lt_or_ge i (n % t) with hc | hc
      · rw [if_pos hc] at h ⊢; omega
      · rw [if_neg (by omega)] at h ⊢; omega
  · intro i j hij hj
    rw [sliceList_getD t n i (by omega), sliceList_getD t n j hj]
    exact slice_bound_mono (n / t) (n % t) (by omega)
  · intro m hm
    obtain ⟨i, hi, hlo, hhi⟩ :=
      exists_mem_interval (fun i => i * (n / t) + min i (n % t)) t m
        (by simp) (by simp only []; rw [Nat.min_eq_right (Nat.le_of_lt hr)]; omega)
    refine ⟨i, hi, ?_, ?_⟩
    · rw [sliceList_getD t n i hi]; exact hlo
    · rw [sliceList_getD t n i hi]; exact hhi
  · intro i j hi hj
    rw [sliceList_getD t n i hi, sliceList_getD t n j hj]
    have h1 := slice_bound_succ (n / t) (n % t) i
    have h2 := slice_bound_succ (n / t) (n % t) j
    rcases Nat.lt_or_ge i (n % t) with hc1 | hc1 <;>
      rcases Nat.lt_or_ge j (n % t) with hc2 | hc2 <;>
        [rw [if_pos hc1] at h1; rw [if_pos hc1] at h1;
         rw [if_neg (by omega)] at h1; rw [if_neg (by omega)] at h1] <;>
        [rw [if_pos hc2] at h2; rw [if_neg (by omega)] at h2;
         rw [if_pos hc2] at h2; rw [if_neg (by omega)] at h2] <;> omega

/-- Witness for `slice_ranges_partition` at `taskCount = 8`,
`itemCount = 14` (the repository's own test vector). -/
theorem slice_ranges_partition_witness :
    (1 ≤ 8 ∧ 8 ≤ 14) ∧
    ∃ rs, get_multiprocess_slice_ranges 8 14 = Except.ok rs ∧
      rs.length = 8 ∧
      (rs.getD 0 (0, 0)).1 = 0 ∧
      (rs.getD (8 - 1) (0, 0)).2 = 14 ∧
      (∀ i, i + 1 < 8 → (rs.getD i (0, 0)).2 = (rs.getD (i + 1) (0, 0)).1) ∧
      (∀ i, i < 8 → (rs.getD i (0, 0)).1 < (rs.getD i (0, 0)).2 ∧
        (rs.getD i (0, 0)).2 - (rs.getD i (0, 0)).1 =
          if i < 14 % 8 then 14 / 8 + 1 else 14 / 8) ∧
      (∀ i j, i < j → j < 8 → (rs.getD i (0, 0)).2 ≤ (rs.getD j (0, 0)).1) ∧
      (∀ m, m < 14 → ∃ i, i < 8 ∧ (rs.getD i (0, 0)).1 ≤ m ∧
        m < (rs.getD i (0, 0)).2) ∧
      (∀ i j, i < 8 → j < 8 →
        (rs.getD i (0, 0)).2 - (rs.getD i (0, 0)).1 ≤
          ((rs.getD j (0, 0)).2 - (rs.getD j (0, 0)).1) + 1) :=
  ⟨⟨by norm_num, by norm_num⟩, slice_ranges_partition 14 8 (by norm_num) (by norm_num)⟩

/-- C8: for every reserved-core count, available-core count and non-empty
input collection, `get_num_tasks(reserved, data)` equals
`clamp(availableCores - reserved, min = 1, max = len(data))`: it is at least 1
even when `reserved ≥ availableCores`, and never exceeds the number of
items. -/
theorem get_num_tasks_clamp {α : Type} (cpuCount cores_to_reserve : Nat)
    (data : List α) (hne : data ≠ []) :
    1 ≤ get_num_tasks cpuCount cores_to_reserve data ∧
    get_num_tasks cpuCount cores_to_reserve data ≤ data.length ∧
    (get_num_tasks cpuCount cores_to_reserve data : Int) =
      min (max ((cpuCount : Int) - (cores_to_reserve : Int)) 1)
        (data.length : Int) := by
  have hlen : 0 < data.length := List.length_pos.mpr hne
  unfold get_num_tasks
  omega

/-- Witness for `get_num_tasks_clamp` at `CPU_COUNT = 4`, one reserved core,
three items. -/
theorem get_num_tasks_clamp_witness :
    ([0, 1, 2] : List Nat) ≠ [] ∧
    1 ≤ get_num_tasks 4 1 [0, 1, 2] ∧
    get_num_tasks 4 1 [0, 1, 2] ≤ ([0, 1, 2] : List Nat).length ∧
    (get_num_tasks 4 1 ([0, 1, 2] : List Nat) : Int) =
      min (max ((4 : Int) - (1 : Int)) 1) (([0, 1, 2] : List Nat).length : Int) :=
  ⟨by simp, get_num_tasks_clamp 4 1 [0, 1, 2] (by simp)⟩

theorem get_num_tasks_nil {α : Type} (cpuCount cores_to_reserve : Nat) :
    get_num_tasks cpuCount cores_to_reserve ([] : List α) = 0 := by
  unfold get_num_tasks
  simp

theorem do_multi_process_nil {α β : Type} (cpuCount cores_to_reserve : Nat)
    (task : List α → Nat → Nat → Nat → β) :
    do_multi_process ([] : List α) task cpuCount cores_to_reserve =
      Except.error PyError.zeroDivisionError := by
  simp [do_multi_process, get_num_tasks_nil, get_multiprocess_slice_ranges,
    Bind.bind, Except.bind]

/-- C10: for an empty input collection `get_num_tasks` returns 0 (the
`len(data)` clamp overrides the minimum of 1), and `do_multi_process` then
fails with Python's `ZeroDivisionError` when `get_multiprocess_slice_ranges`
computes `data_count / num_tasks` with `num_tasks = 0` — in particular the
dispatcher does not return an empty result list for empty input. -/
theorem empty_input_not_processed {α β : Type} (cpuCount cores_to_reserve : Nat)
    (task : List α → Nat → Nat → Nat → β) :
    get_num_tasks cpuCount cores_to_reserve ([] : List α) = 0 ∧
    do_multi_process ([] : List α) task cpuCount cores_to_reserve =
      Except.error PyError.zeroDivisionError :=
  ⟨get_num_tasks_nil cpuCount cores_to_reserve,
    do_multi_process_nil cpuCount cores_to_reserve task⟩

/-! ### Load balancing: sorting lemmas -/

theorem insertDesc_perm (size : α → Nat) (x : α) (l : List α) :
    (insertDesc size x l).Perm (x :: l) := by
  induction l with
  | nil => exact List.Perm.refl _
  | cons y ys ih =>
    unfold insertDesc
    by_cases hc : size y ≤ size x
    · rw [if_pos hc]
    · rw [if_neg hc]
      exact (ih.cons y).trans (List.Perm.swap x y ys)

theorem sortDesc_perm (size : α → Nat) (l : List α) : (sortDesc size l).Perm l := by
  induction l with
  | nil => exact List.Perm.refl _
  | cons x xs ih => exact (insertDesc_perm size x (sortDesc size xs)).trans (ih.cons x)

theorem insertDesc_sorted (size : α → Nat) (x : α) (l : List α)
    (h : l.Pairwise (fun a b => size b ≤ size a)) :
    (insertDesc size x l).Pairwise (fun a b => size b ≤ size a) := by
  induction l with
  | nil => simp [insertDesc]
  | cons y ys ih =>
    obtain ⟨hy, hys⟩ := List.pairwise_cons.mp h
    unfold insertDesc
    by_cases hc : size y ≤ size x
    · rw [if_pos hc]
      refine List.pairwise_cons.mpr ⟨?_, h⟩
      intro b hb
      rcases List.mem_cons.mp hb with rfl | hb
      · exact hc
      · exact (hy b hb).trans hc
    · rw [if_neg hc]
      refine List.pairwise_cons.mpr ⟨?_, ih hys⟩
      intro b hb
      have hb' : b ∈ x :: ys := (insertDesc_perm size x ys).mem_iff.mp hb
      rcases List.mem_cons.mp hb' with rfl | hb'
      · omega
      · exact hy b hb'

theorem sortDesc_sorted (size : α → Nat) (l : List α) :
    (sortDesc size l).Pairwise (fun a b => size b ≤ size a) := by
  induction l with
  | nil => simp [sortDesc]
  | cons x xs ih => exact insertDesc_sorted size x (sortDesc size xs) ih

theorem insertDesc_filter (size : α → Nat) (x : α) (l : List α) (s : Nat) :
    (insertDesc size x l).filter (fun a => size a == s) =
      (if size x == s then [x] else []) ++ l.filter (fun a => size a == s) := by
  induction l with
  | nil => simp [insertDesc, List.filter_cons]
  | cons y ys ih =>
    unfold insertDesc
    by_cases hc : size y ≤ size x
    · rw [if_pos hc]
      simp only [List.filter_cons]
      by_cases h1 : size x = s <;> by_cases h2 : size y = s <;> simp [h1, h2]
    · rw [if_neg hc]
      have hxy : size x < size y := by omega
      simp only [List.filter_cons, ih]
      by_cases h1 : size x = s <;> by_cases h2 : size y = s
      · omega
      · simp [h1, h2]
      · simp [h1, h2]
      · simp [h1, h2]

theorem sortDesc_filter (size : α → Nat) (l : List α) (s : Nat) :
    (sortDesc size l).filter (fun a => size a == s) =
      l.filter (fun a => size a == s) := by
  induction l with
  | nil => rfl
  | cons x xs ih =>
    unfold sortDesc
    rw [insertDesc_filter, ih, List.filter_cons]
    by_cases h1 : size x = s <;> simp [h1]

/-! ### Load balancing: chunking and round-robin dealing -/

theorem chunkListF_congr (t : Nat) :
    ∀ (f1 f2 : Nat) (xs : List α), xs.length ≤ f1 → xs.length ≤ f2 →
      chunkListF t f1 xs = chunkListF t f2 xs := by
  intro f1
  induction f1 with
  | zero =>
    intro f2 xs h1 h2
    have hx : xs = [] := List.length_eq_zero.mp (by omega)
    subst hx
    cases f2 <;> simp [chunkListF]
  | succ f1 ih =>
    intro f2 xs h1 h2
    cases xs with
    | nil => cases f2 <;> simp [chunkListF]
    | cons x l =>
      cases f2 with
      | zero => simp at h2
      | succ f2 =>
        simp only [chunkListF]
        congr 1
        have hd : (l.drop (t - 1)).length ≤ l.length := by
          rw [List.length_drop]; omega
        simp only [List.length_cons] at h1 h2
        exact ih f2 (l.drop (t - 1)) (by omega) (by omega)

theorem chunkList_cons (t : Nat) (ht : 1 ≤ t) (x : α) (l : List α) :
    chunkList t (x :: l) = ((x :: l).take t) :: chunkList t ((x :: l).drop t) := by
  obtain ⟨t', rfl⟩ : ∃ t', t = t' + 1 := ⟨t - 1, by omega⟩
  simp only [chunkList, List.length_cons, chunkListF, Nat.add_sub_cancel,
    List.take_succ_cons, List.drop_succ_cons]
  congr 1
  exact chunkListF_congr (t' + 1) l.length (l.drop t').length (l.drop t')
    (by rw [List.length_drop]; omega) (le_refl _)

theorem filter_beq_range (n j : Nat) :
    (List.range n).filter (fun i => i == j) = if j < n then [j] else [] := by
  induction n with
  | zero => simp
  | succ n ih =>
    rw [List.range_succ, List.filter_append, ih]
    by_cases h : j < n
    · rw [if_pos h, if_pos (by omega)]
      simp [show ¬ n = j by omega]
    · rw [if_neg h]
      by_cases h2 : j = n
      · subst h2; rw [if_pos (by omega)]; simp
      · rw [if_neg (by omega)]; simp [show ¬ n = j by omega]

theorem filter_mod_range_small (t n j : Nat) (h : n ≤ t) :
    (List.range n).filter (fun i => i % t == j) = if j < n then [j] else [] := by
  rw [List.filter_congr (q := fun i => i == j) fun i hi => ?_, filter_beq_range n j]
  have hi' : i < n := List.mem_range.mp hi
  rw [Nat.mod_eq_of_lt (by omega)]

theorem part2_shift (t m j : Nat) (xs : List α) :
    (((List.range m).map (fun i => t + i)).filter
        (fun i => i % t == j)).filterMap (fun i => xs[i]?) =
      ((List.range m).filter (fun i => i % t == j)).filterMap
        (fun i => (xs.drop t)[i]?) := by
  rw [List.filter_map, List.filterMap_map]
  have hfil : List.filter ((fun i => i % t == j) ∘ fun i => t + i) (List.range m) =
      List.filter (fun i => i % t == j) (List.range m) :=
    List.filter_congr fun i _ => by simp [Function.comp, Nat.add_mod_left]
  have hfn : ((fun i => xs[i]?) ∘ (fun i => t + i)) = fun i => (xs.drop t)[i]? :=
    funext fun i => (List.getElem?_drop xs t i).symm
  rw [hfil, hfn]

theorem chunk_bucket_eq (t : Nat) (ht : 1 ≤ t) (j : Nat) :
    ∀ (n : Nat) (xs : List α), xs.length = n →
      (chunkList t xs).filterMap (fun row => row[j]?) =
        ((List.range xs.length).filter (fun i => i % t == j)).filterMap
          (fun i => xs[i]?) := by
  intro n
  induction n using Nat.strong_induction_on with
  | _ n ih =>
    intro xs hlen
    cases xs with
    | nil => simp [chunkList, chunkListF]
    | cons x l =>
      have hlc : (x :: l).length = l.length + 1 := by simp
      rw [chunkList_cons t ht x l]
      by_cases hc : (x :: l).length ≤ t
      · rw [List.take_of_length_le hc, List.drop_eq_nil_of_le hc,
          filter_mod_range_small t _ j hc]
        by_cases hj : j < (x :: l).length
        · have hv : (x :: l)[j]? = some ((x :: l)[j]) := List.getElem?_eq_getElem hj
          rw [if_pos hj]
          simp [List.filterMap_cons, hv, chunkList, chunkListF]
        · have hv : (x :: l)[j]? = none := List.getElem?_eq_none (by omega)
          rw [if_neg hj]
          simp [List.filterMap_cons, hv, chunkList, chunkListF]
      · have hsplit : (x :: l).length = t + ((x :: l).length - t) := by omega
        have hdl : ((x :: l).drop t).length = (x :: l).length - t := by
          rw [List.length_drop]
        have ihd := ih ((x :: l).length - t) (by omega) ((x :: l).drop t) hdl
        rw [List.filterMap_cons]
        conv_rhs => rw [hsplit, List.range_add, List.filter_append,
          List.filterMap_append, filter_mod_range_small t t j (le_refl t)]
        rw [part2_shift t _ j (x :: l), ← hdl, ← ihd]
        have htake : ((x :: l).take t)[j]? = if j < t then (x :: l)[j]? else none :=
          List.getElem?_take
        by_cases hj : j < t
        · have hjlen : j < (x :: l).length := by omega
          have hv : (x :: l)[j]? = some ((x :: l)[j]) := List.getElem?_eq_getElem hjlen
          rw [if_pos hj] at htake
          rw [htake, hv, if_pos hj]
          simp [hv]
        · rw [if_neg hj] at htake
          rw [htake, if_neg hj]
          simp

theorem load_balance_code_eq_spec (size : α → Nat) (l : List α) (t : Nat)
    (ht : 1 ≤ t) :
    sort_file_paths_for_load_balancing size l t = loadBalanceSpec size l t := by
  simp only [sort_file_paths_for_load_balancing, loadBalanceSpec]
  exact congrArg (List.range t).flatMap (funext fun j =>
    chunk_bucket_eq t ht j (sortDesc size l).length (sortDesc size l) rfl)

theorem filterMap_getElem_range (l : List α) :
    (List.range l.length).filterMap (fun i => l[i]?) = l := by
  induction l with
  | nil => simp
  | cons x xs ih =>
    rw [List.length_cons, List.range_succ_eq_map, List.filterMap_cons]
    simp only [List.getElem?_cons_zero, List.filterMap_map]
    have hfn : ((fun i => (x :: xs)[i]?) ∘ Nat.succ) = fun i => xs[i]? :=
      funext fun i => List.getElem?_cons_succ
    rw [hfn, ih]

theorem index_flatMap_perm (t n : Nat) (ht : 1 ≤ t) :
    ((List.range t).flatMap fun j =>
      (List.range n).filter fun i => i % t == j).Perm (List.range n) := by
  refine (List.perm_ext_iff_of_nodup ?_ (List.nodup_range n)).mpr ?_
  · refine List.nodup_flatMap.mpr ⟨fun j _ => (List.nodup_range n).filter _, ?_⟩
    refine List.Pairwise.imp ?_ (List.pairwise_lt_range t)
    intro j1 j2 hlt a ha1 ha2
    have h1 := (List.mem_filter.mp ha1).2
    have h2 := (List.mem_filter.mp ha2).2
    simp only [beq_iff_eq] at h1 h2
    omega
  · intro a
    simp only [List.mem_flatMap, List.mem_filter, List.mem_range, beq_iff_eq]
    constructor
    · rintro ⟨j, _, ha, _⟩; exact ha
    · intro ha; exact ⟨a % t, Nat.mod_lt a (by omega), ha, rfl⟩

theorem loadBalanceSpec_perm (size : α → Nat) (l : List α) (t : Nat) (ht : 1 ≤ t) :
    (loadBalanceSpec size l t).Perm l := by
  simp only [loadBalanceSpec]
  rw [show ((List.range t).flatMap fun j =>
      ((List.range (sortDesc size l).length).filter fun i => i % t == j).filterMap
        fun i => (sortDesc size l)[i]?) =
      (((List.range t).flatMap fun j =>
        (List.range (sortDesc size l).length).filter fun i => i % t == j).filterMap
          fun i => (sortDesc size l)[i]?) by
    rw [List.flatMap_def, List.flatMap_def, List.filterMap_flatten, List.map_map]
    rfl]
  have h1 := List.Perm.filterMap (fun i => (sortDesc size l)[i]?)
    (index_flatMap_perm t (sortDesc size l).length ht)
  rw [filterMap_getElem_range] at h1
  exact h1.trans (sortDesc_perm size l)

/-- C2: for every list of items with sizes and every `taskCount ≥ 1`,
`sort_file_paths_for_load_balancing` equals the reference definition
(stable-sort descending by size — `sortDesc` is proved sorted and stable, with
ties keeping original relative order — then deal item `i` of the sorted list
into bucket `i mod taskCount` and concatenate the buckets), and is a
permutation of the input; for `taskCount = 4` and the 8 item sizes
`[193, 162, 157, 153, 149, 135, 129, 122]` the output order is
`[193, 149, 162, 135, 157, 129, 153, 122]`. -/
theorem load_balance_refinement :
    (∀ {α : Type} (size : α → Nat) (file_paths : List α) (t : Nat), 1 ≤ t →
      sort_file_paths_for_load_balancing size file_paths t =
        loadBalanceSpec size file_paths t ∧
      (sort_file_paths_for_load_balancing size file_paths t).Perm file_paths ∧
      (sortDesc size file_paths).Perm file_paths ∧
      (sortDesc size file_paths).Pairwise (fun a b => size b ≤ size a) ∧
      (∀ s, (sortDesc size file_paths).filter (fun a => size a == s) =
        file_paths.filter (fun a => size a == s))) ∧
    sort_file_paths_for_load_balancing (fun n => n)
      [193, 162, 157, 153, 149, 135, 129, 122] 4 =
      [193, 149, 162, 135, 157, 129, 153, 122] := by
  constructor
  · intro α size fp t ht
    refine ⟨load_balance_code_eq_spec size fp t ht, ?_, sortDesc_perm size fp,
      sortDesc_sorted size fp, fun s => sortDesc_filter size fp s⟩
    rw [load_balance_code_eq_spec size fp t ht]
    exact loadBalanceSpec_perm size fp t ht
  · rfl

/-- Witness for `load_balance_refinement` at three items and two buckets. -/
theorem load_balance_refinement_witness :
    (1 ≤ 2) ∧
    sort_file_paths_for_load_balancing (fun n : Nat => n) [10, 20, 30] 2 =
      loadBalanceSpec (fun n : Nat => n) [10, 20, 30] 2 ∧
    (sort_file_paths_for_load_balancing (fun n : Nat => n) [10, 20, 30] 2).Perm
      [10, 20, 30] :=
  ⟨by norm_num,
    (load_balance_refinement.1 (fun n => n) [10, 20, 30] 2 (by norm_num)).1,
    (load_balance_refinement.1 (fun n => n) [10, 20, 30] 2 (by norm_num)).2.1⟩

/-! ### Merger: characterisation lemmas -/

theorem dedupGo_append (idOf : Row → String) (xs ys : List Row) :
    ∀ ids, dedupGo idOf (xs ++ ys) ids =
      ((dedupGo idOf xs ids).1 ++ (dedupGo idOf ys (dedupGo idOf xs ids).2).1,
       (dedupGo idOf ys (dedupGo idOf xs ids).2).2) := by
  induction xs with
  | nil => intro ids; simp [dedupGo]
  | cons r rs ih =>
    intro ids
    by_cases h : idOf r ∈ ids
    · simp only [List.cons_append, dedupGo, if_pos h]
      exact ih ids
    · simp only [List.cons_append, dedupGo, if_neg h, List.append_eq]
      rw [ih (idOf r :: ids)]

theorem processBody_append (d : Bool) (idOf : Row → String) (xs ys : List Row)
    (ids : List String) :
    processBody d idOf (xs ++ ys) ids =
      ((processBody d idOf xs ids).1 ++
        (processBody d idOf ys (processBody d idOf xs ids).2).1,
       (processBody d idOf ys (processBody d idOf xs ids).2).2) := by
  cases d
  · simp [processBody]
  · simp only [processBody, if_pos]
    exact dedupGo_append idOf xs ys ids

theorem processBody_nil (d : Bool) (idOf : Row → String) (ids : List String) :
    processBody d idOf [] ids = ([], ids) := by
  cases d <;> simp [processBody, dedupGo]

theorem mergeFilesGo_no_headers {ι : Type} (fs : ι → Option (List Row)) (d : Bool)
    (idOf : Row → String) (files : ι → List Row) :
    ∀ (paths : List ι), (∀ p ∈ paths, fs p = some (files p)) →
      ∀ hw ids, mergeFilesGo fs false d idOf paths hw ids =
        Except.ok ((processBody d idOf ((paths.map files).flatten) ids).1) := by
  intro paths
  induction paths with
  | nil =>
    intro _ hw ids
    simp [mergeFilesGo, processBody_nil]
  | cons p ps ih =>
    intro hfs hw ids
    have hp := hfs p (List.mem_cons_self p ps)
    simp only [mergeFilesGo, hp]
    rw [ih (fun q hq => hfs q (List.mem_cons_of_mem p hq)) hw
      (processBody d idOf (files p) ids).2]
    simp only [Except.map]
    rw [List.map_cons, List.flatten_cons, processBody_append]

theorem mergeFilesGo_headers_hw {ι : Type} (fs : ι → Option (List Row)) (d : Bool)
    (idOf : Row → String) (files : ι → List Row) :
    ∀ (paths : List ι), (∀ p ∈ paths, fs p = some (files p)) →
      (∀ p ∈ paths, files p ≠ []) →
      ∀ ids, mergeFilesGo fs true d idOf paths true ids =
        Except.ok ((processBody d idOf
          ((paths.map fun p => (files p).tail).flatten) ids).1) := by
  intro paths
  induction paths with
  | nil =>
    intro _ _ ids
    simp [mergeFilesGo, processBody_nil]
  | cons p ps ih =>
    intro hfs hne ids
    have hp := hfs p (List.mem_cons_self p ps)
    obtain ⟨h0, b, hpb⟩ := List.exists_cons_of_ne_nil (hne p (List.mem_cons_self p ps))
    simp only [mergeFilesGo, hp, hpb]
    rw [ih (fun q hq => hfs q (List.mem_cons_of_mem p hq))
      (fun q hq => hne q (List.mem_cons_of_mem p hq))
      (processBody d idOf b ids).2]
    simp only [Except.map, List.map_cons, List.flatten_cons]
    rw [hpb, List.tail_cons, processBody_append]
    simp

theorem mergeFilesGo_headers {ι : Type} (fs : ι → Option (List Row)) (d : Bool)
    (idOf : Row → String) (files : ι → List Row) (p : ι) (ps : List ι)
    (hfs : ∀ q ∈ p :: ps, fs q = some (files q))
    (hne : ∀ q ∈ p :: ps, files q ≠ []) (ids : List String) :
    mergeFilesGo fs true d idOf (p :: ps) false ids =
      Except.ok ((files p).take 1 ++ (processBody d idOf
        (((p :: ps).map fun q => (files q).tail).flatten) ids).1) := by
  have hp := hfs p (List.mem_cons_self p ps)
  obtain ⟨h0, b, hpb⟩ := List.exists_cons_of_ne_nil (hne p (List.mem_cons_self p ps))
  simp only [mergeFilesGo, hp, hpb]
  rw [mergeFilesGo_headers_hw fs d idOf files ps
    (fun q hq => hfs q (List.mem_cons_of_mem p hq))
    (fun q hq => hne q (List.mem_cons_of_mem p hq))
    (processBody d idOf b ids).2]
  simp only [Except.map, List.map_cons, List.flatten_cons]
  rw [hpb, List.tail_cons, List.take_succ_cons, List.take_zero, processBody_append]
  simp

theorem dedupGo_sublist (idOf : Row → String) (l : List Row) :
    ∀ ids, (dedupGo idOf l ids).1.Sublist l := by
  induction l with
  | nil => intro ids; simp [dedupGo]
  | cons r rs ih =>
    intro ids
    simp only [dedupGo]
    by_cases h : idOf r ∈ ids
    · simp only [if_pos h]
      exact (ih ids).cons r
    · simp only [if_neg h]
      exact (ih (idOf r :: ids)).cons₂ r

theorem dedupGo_filter (idOf : Row → String) (l : List Row) :
    ∀ (ids : List String) (v : String),
      (dedupGo idOf l ids).1.filter (fun r => idOf r == v) =
        if v ∈ ids then [] else (l.filter (fun r => idOf r == v)).take 1 := by
  induction l with
  | nil =>
    intro ids v
    by_cases h : v ∈ ids <;> simp [dedupGo, h]
  | cons r rs ih =>
    intro ids v
    simp only [dedupGo]
    by_cases h : idOf r ∈ ids
    · simp only [if_pos h, ih ids v, List.filter_cons]
      by_cases hv : v ∈ ids
      · simp [hv]
      · have hne : (idOf r == v) = false :=
          beq_eq_false_iff_ne.mpr fun he => hv (he ▸ h)
        simp [hv, hne]
    · simp only [if_neg h, List.filter_cons]
      by_cases hrv : idOf r = v
      · have hbt : (idOf r == v) = true := beq_iff_eq.mpr hrv
        have hv : v ∉ ids := fun hm => h (hrv ▸ hm)
        have hmem : v ∈ idOf r :: ids := by simp [hrv]
        simp only [hbt, if_pos, cond_true, ite_true, ih (idOf r :: ids) v,
          if_pos hmem, if_neg hv]
        simp
      · have hbf : (idOf r == v) = false := beq_eq_false_iff_ne.mpr hrv
        have hiff : (v ∈ idOf r :: ids) ↔ (v ∈ ids) := by
          constructor
          · intro hm
            rcases List.mem_cons.mp hm with he | hm'
            · exact absurd he.symm hrv
            · exact hm'
          · intro hm
            exact List.mem_cons_of_mem _ hm
        simp only [hbf, cond_false, ite_false, ih (idOf r :: ids) v]
        by_cases hv : v ∈ ids
        · simp [hv, hiff.mpr hv]
        · simp only [if_neg hv, if_neg (fun hm => hv (hiff.mp hm))]
          simp

theorem find?_eq_head?_filter' {α : Type} (p : α → Bool) (l : List α) :
    l.find? p = (l.filter p).head? := by
  induction l with
  | nil => rfl
  | cons x xs ih =>
    by_cases h : p x
    · rw [List.find?_cons_of_pos _ h, List.filter_cons_of_pos h]
      rfl
    · rw [List.find?_cons_of_neg _ (by simp [h]), List.filter_cons_of_neg (by simp [h]), ih]

theorem dedupGo_find_first (idOf : Row → String) (rows : List Row) (r : Row)
    (hr : r ∈ (dedupGo idOf rows []).1) :
    rows.find? (fun r2 => idOf r2 == idOf r) = some r := by
  have hmem : r ∈ (dedupGo idOf rows []).1.filter (fun r2 => idOf r2 == idOf r) :=
    List.mem_filter.mpr ⟨hr, by simp⟩
  rw [dedupGo_filter idOf rows [] (idOf r), if_neg (by simp)] at hmem
  rw [find?_eq_head?_filter']
  cases hfl : rows.filter (fun r2 => idOf r2 == idOf r) with
  | nil => rw [hfl] at hmem; simp at hmem
  | cons a tl =>
    rw [hfl] at hmem
    simp only [List.take_succ_cons, List.take_zero, List.mem_singleton] at hmem
    rw [hmem]
    rfl

theorem dedupGo_countP (idOf : Row → String) (rows : List Row) (v : String) :
    (dedupGo idOf rows []).1.countP (fun r => idOf r == v) =
      if rows.any (fun r => idOf r == v) = true then 1 else 0 := by
  rw [List.countP_eq_length_filter, dedupGo_filter idOf rows [] v, if_neg (by simp),
    List.length_take]
  by_cases ha : rows.any (fun r => idOf r == v) = true
  · obtain ⟨x, hx, hpx⟩ := List.any_eq_true.mp ha
    have hmem : x ∈ rows.filter (fun r => idOf r == v) := List.mem_filter.mpr ⟨hx, hpx⟩
    have hpos : 0 < (rows.filter (fun r => idOf r == v)).length :=
      List.length_pos.mpr (List.ne_nil_of_mem hmem)
    rw [if_pos ha]
    omega
  · have hnil : rows.filter (fun r => idOf r == v) = [] := by
      rw [List.filter_eq_nil_iff]
      intro a hma hpa
      exact ha (List.any_eq_true.mpr ⟨a, hma, hpa⟩)
    rw [if_neg ha, hnil]
    simp

/-- C3: `merge_csv_files` with an identity (`entry_class`) supplied writes each
identity value exactly once: the first-seen row of every identity is written
with the data of its first occurrence (relative to the concatenation of all
input data rows, in input-list order), every later row with an already-seen
identity is dropped, and relative order is preserved (the output data rows are
a sublist of the concatenated inputs). -/
theorem merge_dedup_first_seen {ι : Type} (fs : ι → Option (List Row))
    (paths : List ι) (files : ι → List Row) (include_headers : Bool)
    (cls : List String) (idOf : Row → String)
    (hfs : ∀ p ∈ paths, fs p = some (files p))
    (hne : include_headers = true → ∀ p ∈ paths, files p ≠ []) :
    ∃ body,
      merge_csv_files fs paths include_headers (some cls) idOf =
        Except.ok ((if include_headers then
          paths.head?.elim ([] : List Row) (fun p => (files p).take 1)
          else []) ++ body) ∧
      body.Sublist ((paths.map fun p =>
        if include_headers then (files p).tail else files p).flatten) ∧
      (∀ r ∈ body, ((paths.map fun p =>
        if include_headers then (files p).tail else files p).flatten).find?
          (fun r2 => idOf r2 == idOf r) = some r) ∧
      (∀ v, body.countP (fun r => idOf r == v) =
        if ((paths.map fun p =>
          if include_headers then (files p).tail else files p).flatten).any
            (fun r => idOf r == v) = true then 1 else 0) := by
  cases include_headers with
  | false =>
    refine ⟨(dedupGo idOf ((paths.map files).flatten) []).1, ?_, ?_, ?_, ?_⟩
    · unfold merge_csv_files
      simp only [Option.isSome_some]
      rw [mergeFilesGo_no_headers fs true idOf files paths hfs false []]
      simp [processBody]
    · simpa using dedupGo_sublist idOf ((paths.map files).flatten) []
    · intro r hr
      simpa using dedupGo_find_first idOf ((paths.map files).flatten) r hr
    · intro v
      simpa using dedupGo_countP idOf ((paths.map files).flatten) v
  | true =>
    cases paths with
    | nil =>
      refine ⟨[], ?_, by simp, by simp, by simp⟩
      unfold merge_csv_files
      simp [mergeFilesGo]
    | cons p ps =>
      refine ⟨(dedupGo idOf (((p :: ps).map fun q => (files q).tail).flatten) []).1,
        ?_, ?_, ?_, ?_⟩
      · unfold merge_csv_files
        simp only [Option.isSome_some]
        rw [mergeFilesGo_headers fs true idOf files p ps hfs (hne rfl) []]
        simp [processBody]
      · simpa using dedupGo_sublist idOf
          (((p :: ps).map fun q => (files q).tail).flatten) []
      · intro r hr
        simpa using dedupGo_find_first idOf
          (((p :: ps).map fun q => (files q).tail).flatten) r hr
      · intro v
        simpa using dedupGo_countP idOf
          (((p :: ps).map fun q => (files q).tail).flatten) v

/-- Witness for `merge_dedup_first_seen`: two input files whose rows share the
identity value `"1"`. -/
theorem merge_dedup_first_seen_witness :
    ((∀ p ∈ ([0, 1] : List Nat),
        (fun _ : Nat => some ([[ "1", "a" ]] : List Row)) p =
          some ((fun _ : Nat => ([[ "1", "a" ]] : List Row)) p)) ∧
      (false = true → ∀ p ∈ ([0, 1] : List Nat),
        (fun _ : Nat => ([[ "1", "a" ]] : List Row)) p ≠ [])) ∧
    ∃ body,
      merge_csv_files (fun _ : Nat => some ([[ "1", "a" ]] : List Row)) [0, 1]
          false (some ["id"]) (fun r => r.headD "") =
        Except.ok ((if false then
          ([0, 1] : List Nat).head?.elim ([] : List Row)
            (fun p => ((fun _ : Nat => ([[ "1", "a" ]] : List Row)) p).take 1)
          else []) ++ body) ∧
      body.Sublist ((([0, 1] : List Nat).map fun p =>
        if false then ((fun _ : Nat => ([[ "1", "a" ]] : List Row)) p).tail
        else (fun _ : Nat => ([[ "1", "a" ]] : List Row)) p).flatten) ∧
      (∀ r ∈ body, ((([0, 1] : List Nat).map fun p =>
        if false then ((fun _ : Nat => ([[ "1", "a" ]] : List Row)) p).tail
        else (fun _ : Nat => ([[ "1", "a" ]] : List Row)) p).flatten).find?
          (fun r2 => (fun r : Row => r.headD "") r2 ==
            (fun r : Row => r.headD "") r) = some r) ∧
      (∀ v, body.countP (fun r => (fun r : Row => r.headD "") r == v) =
        if ((([0, 1] : List Nat).map fun p =>
          if false then ((fun _ : Nat => ([[ "1", "a" ]] : List Row)) p).tail
          else (fun _ : Nat => ([[ "1", "a" ]] : List Row)) p).flatten).any
            (fun r => (fun r : Row => r.headD "") r == v) = true then 1 else 0) :=
  ⟨⟨fun _ _ => rfl, fun h => nomatch h⟩,
    merge_dedup_first_seen (fun _ => some [["1", "a"]]) [0, 1]
      (fun _ => [["1", "a"]]) false ["id"] (fun r => r.headD "")
      (fun _ _ => rfl) (fun h => nomatch h)⟩

/-- C4: for a non-empty list of input files that each start with a header row,
`merge_csv_files` with headers enabled and no dedup writes the header row of
the first input exactly once, skips the header row of every later input, and
then writes all remaining rows in input-list order, each input's rows in file
order. -/
theorem merge_headers_once {ι : Type} (fs : ι → Option (List Row)) (p0 : ι)
    (rest : List ι) (files : ι → List Row) (idOf : Row → String) (hrow : Row)
    (tl0 : List Row)
    (hfs : ∀ p ∈ p0 :: rest, fs p = some (files p))
    (hne : ∀ p ∈ p0 :: rest, files p ≠ [])
    (hp0 : files p0 = hrow :: tl0) :
    merge_csv_files fs (p0 :: rest) true none idOf =
      Except.ok (hrow :: ((p0 :: rest).map fun p => (files p).tail).flatten) := by
  unfold merge_csv_files
  simp only [Option.isSome_none]
  rw [mergeFilesGo_headers fs false idOf files p0 rest hfs hne [], hp0]
  simp [processBody]

/-- Witness for `merge_headers_once`: three single-row files sharing the header
`["h"]` merge to one header followed by the three rows in input order. -/
theorem merge_headers_once_witness :
    merge_csv_files
        (fun p : String => some ([["h"], [p]] : List Row)) ["x", "y", "z"] true
        none (fun r => r.headD "") =
      Except.ok [["h"], ["x"], ["y"], ["z"]] := by
  have h := merge_headers_once (fun p : String => some ([["h"], [p]] : List Row))
    "x" ["y", "z"] (fun p => [["h"], [p]]) (fun r => r.headD "") ["h"] [["x"]]
    (fun _ _ => rfl) (fun p hp => by simp) rfl
  simpa using h

/-- C9: if some listed input path does not exist or cannot be read (`fs` yields
`none`), `merge_csv_files` fails with a fatal error for every flag combination:
the missing input is never skipped and the merge never completes normally. -/
theorem merge_missing_input_fatal {ι : Type} (fs : ι → Option (List Row))
    (paths : List ι) (include_headers : Bool) (entry_class : Option (List String))
    (idOf : Row → String) (hmiss : ∃ p ∈ paths, fs p = none) :
    ∀ out, merge_csv_files fs paths include_headers entry_class idOf ≠
      Except.ok out := by
  unfold merge_csv_files
  suffices h : ∀ (ps : List ι) (hw : Bool) (ids : List String) (out : List Row),
      (∃ p ∈ ps, fs p = none) →
      mergeFilesGo fs include_headers entry_class.isSome idOf ps hw ids ≠
        Except.ok out by
    intro out
    exact h paths false [] out hmiss
  intro ps
  induction ps with
  | nil =>
    intro hw ids out hm
    obtain ⟨p, hp, _⟩ := hm
    simp at hp
  | cons p ps ih =>
    intro hw ids out hm
    simp only [mergeFilesGo]
    cases hfp : fs p with
    | none => simp
    | some rows =>
      have hm' : ∃ q ∈ ps, fs q = none := by
        obtain ⟨q, hq, hfq⟩ := hm
        rcases List.mem_cons.mp hq with rfl | hq'
        · rw [hfp] at hfq; exact absurd hfq (by simp)
        · exact ⟨q, hq', hfq⟩
      cases include_headers with
      | false =>
        cases hrec : mergeFilesGo fs false entry_class.isSome idOf ps hw
            (processBody entry_class.isSome idOf rows ids).2 with
        | error e => simp [Except.map, hrec]
        | ok rest => exact absurd hrec (ih hw _ rest hm')
      | true =>
        cases rows with
        | nil => simp
        | cons hrow body =>
          cases hrec : mergeFilesGo fs true entry_class.isSome idOf ps true
              (processBody entry_class.isSome idOf body ids).2 with
          | error e => simp [Except.map, hrec]
          | ok rest => exact absurd hrec (ih true _ rest hm')

/-- Witness for `merge_missing_input_fatal`: the second of two input paths
cannot be opened. -/
theorem merge_missing_input_fatal_witness :
    (∃ p ∈ ([0, 1] : List Nat),
      (fun i : Nat => if i = 0 then some ([["h"]] : List Row) else none) p = none) ∧
    merge_csv_files
        (fun i : Nat => if i = 0 then some ([["h"]] : List Row) else none)
        [0, 1] true none (fun r => r.headD "") ≠ Except.ok [] :=
  ⟨⟨1, by simp, rfl⟩,
    merge_missing_input_fatal
      (fun i : Nat => if i = 0 then some ([["h"]] : List Row) else none)
      [0, 1] true none (fun r => r.headD "") ⟨1, by simp, rfl⟩ []⟩

/-! ### Worker task -/

theorem dumpRows_eq (parse : String → ParseResult) (l : List String) :
    dumpRows parse l =
      ((l.map (outRowsOf parse)).flatten, l.filterMap (errRowOf parse)) := by
  induction l with
  | nil => rfl
  | cons p ps ih =>
    cases hp : parse p <;> simp [dumpRows, outRowsOf, errRowOf, hp, ih]

theorem dump_into_csv_task_eq (parse : String → ParseResult)
    (file_paths : List String) (slice_start slice_end : Nat)
    (csv_headers : Option (List String)) :
    dump_into_csv_task parse file_paths slice_start slice_end csv_headers =
      { outRows := csv_headers.toList ++
          (((file_paths.drop slice_start).take (slice_end - slice_start)).map
            (outRowsOf parse)).flatten,
        errRows := ["file", "error"] ::
          ((file_paths.drop slice_start).take
            (slice_end - slice_start)).filterMap (errRowOf parse) } := by
  simp only [dump_into_csv_task]
  rw [dumpRows_eq]
  cases csv_headers <;> rfl

/-- C7: `_dump_into_csv_task` processes the items of its range in order; a
parser exception on an item appends exactly one row `[file_path, traceback]`
to the worker's error artifact and processing continues — all items after the
failing one are still processed and the worker still completes with both
artifacts — while every successfully parsed record's values (one row for a
single record, one row per record of a collection) are appended to the
worker's output artifact. -/
theorem worker_failure_isolated :
    (∀ (parse : String → ParseResult) (file_paths : List String)
        (slice_start slice_end : Nat) (csv_headers : Option (List String)),
      dump_into_csv_task parse file_paths slice_start slice_end csv_headers =
        { outRows := csv_headers.toList ++
            (((file_paths.drop slice_start).take (slice_end - slice_start)).map
              (outRowsOf parse)).flatten,
          errRows := ["file", "error"] ::
            ((file_paths.drop slice_start).take
              (slice_end - slice_start)).filterMap (errRowOf parse) }) ∧
    (∀ (parse : String → ParseResult) (file_paths : List String)
        (slice_start slice_end : Nat) (csv_headers : Option (List String))
        (xs ys : List String) (p : String) (tb : String),
      (file_paths.drop slice_start).take (slice_end - slice_start) =
        xs ++ p :: ys →
      parse p = ParseResult.raise tb →
      dump_into_csv_task parse file_paths slice_start slice_end csv_headers =
        { outRows := csv_headers.toList ++
            ((xs.map (outRowsOf parse)).flatten ++
              (ys.map (outRowsOf parse)).flatten),
          errRows := ["file", "error"] ::
            (xs.filterMap (errRowOf parse) ++
              [p, tb] :: ys.filterMap (errRowOf parse)) }) := by
  refine ⟨fun parse fp s e ch => dump_into_csv_task_eq parse fp s e ch, ?_⟩
  intro parse file_paths s e csv_headers xs ys p tb hsl hp
  rw [dump_into_csv_task_eq parse file_paths s e csv_headers, hsl]
  have hout : outRowsOf parse p = [] := by simp [outRowsOf, hp]
  have herr : errRowOf parse p = some [p, tb] := by simp [errRowOf, hp]
  simp [List.map_append, List.flatten_append, List.filterMap_append,
    List.filterMap_cons, hout, herr]

/-- Witness for `worker_failure_isolated`: the first file of a two-file slice
fails to parse, the second is still processed. -/
theorem worker_failure_isolated_witness :
    ((["a", "b"].drop 0).take (2 - 0) = [] ++ "a" :: ["b"]) ∧
    ((fun q => if q = "a" then ParseResult.raise "T"
        else ParseResult.single ⟨["id"], [q]⟩) "a" = ParseResult.raise "T") ∧
    dump_into_csv_task
        (fun q => if q = "a" then ParseResult.raise "T"
          else ParseResult.single ⟨["id"], [q]⟩) ["a", "b"] 0 2 none =
      { outRows := (none : Option (List String)).toList ++
          ((([] : List String).map (outRowsOf (fun q =>
            if q = "a" then ParseResult.raise "T"
            else ParseResult.single ⟨["id"], [q]⟩))).flatten ++
            (["b"].map (outRowsOf (fun q =>
              if q = "a" then ParseResult.raise "T"
              else ParseResult.single ⟨["id"], [q]⟩))).flatten),
        errRows := ["file", "error"] ::
          (([] : List String).filterMap (errRowOf (fun q =>
            if q = "a" then ParseResult.raise "T"
            else ParseResult.single ⟨["id"], [q]⟩)) ++
            ["a", "T"] :: ["b"].filterMap (errRowOf (fun q =>
              if q = "a" then ParseResult.raise "T"
              else ParseResult.single ⟨["id"], [q]⟩))) } :=
  ⟨rfl, rfl,
    worker_failure_isolated.2
      (fun q => if q = "a" then ParseResult.raise "T"
        else ParseResult.single ⟨["id"], [q]⟩)
      ["a", "b"] 0 2 none [] ["b"] "a" "T" rfl rfl⟩

/-! ### Header probing -/

theorem probeHeaders_ok_iff (parse : String → ParseResult) :
    ∀ (l : List String) (hs : List String),
      probeHeaders parse l = Except.ok hs ↔
        ∃ pre p post, l = pre ++ p :: post ∧
          (∀ q ∈ pre, parseFalsy (parse q) = true) ∧
          parseHeaders (parse p) = some hs := by
  intro l
  induction l with
  | nil =>
    intro hs
    constructor
    · intro h; simp [probeHeaders] at h
    · rintro ⟨pre, p, post, heq, -, -⟩
      exact absurd heq (by simp)
  | cons p ps ih =>
    intro hs
    constructor
    · intro h
      cases hp : parse p with
      | raise tb => simp [probeHeaders, hp] at h
      | single r =>
        by_cases hf : r.fields.isEmpty
        · simp only [probeHeaders, hp, if_pos hf] at h
          obtain ⟨pre, q, post, heq, hpre, hhd⟩ := (ih hs).mp h
          refine ⟨p :: pre, q, post, by rw [heq]; rfl, ?_, hhd⟩
          intro x hx
          rcases List.mem_cons.mp hx with rfl | hx'
          · simp [parseFalsy, hp, hf]
          · exact hpre x hx'
        · simp only [probeHeaders, hp, if_neg hf, Except.ok.injEq] at h
          exact ⟨[], p, ps, rfl, by simp, by rw [← h]; simp [parseHeaders, hp, hf]⟩
      | coll rs =>
        cases rs with
        | nil =>
          simp only [probeHeaders, hp] at h
          obtain ⟨pre, q, post, heq, hpre, hhd⟩ := (ih hs).mp h
          refine ⟨p :: pre, q, post, by rw [heq]; rfl, ?_, hhd⟩
          intro x hx
          rcases List.mem_cons.mp hx with rfl | hx'
          · simp [parseFalsy, hp]
          · exact hpre x hx'
        | cons r rs' =>
          simp only [probeHeaders, hp, Except.ok.injEq] at h
          exact ⟨[], p, ps, rfl, by simp, by simp [parseHeaders, hp, h]⟩
    · rintro ⟨pre, q, post, heq, hpre, hhd⟩
      cases pre with
      | nil =>
        simp only [List.nil_append] at heq
        injection heq with h1 h2
        subst h1
        subst h2
        cases hp : parse p with
        | raise tb => rw [hp] at hhd; simp [parseHeaders] at hhd
        | single r =>
          rw [hp] at hhd
          by_cases hf : r.fields.isEmpty
          · simp [parseHeaders, hf] at hhd
          · simp only [parseHeaders, if_neg hf, Option.some.injEq] at hhd
            subst hhd
            simp [probeHeaders, hp, hf]
        | coll rs =>
          cases rs with
          | nil => rw [hp] at hhd; simp [parseHeaders] at hhd
          | cons r rs' =>
            rw [hp] at hhd
            simp only [parseHeaders, Option.some.injEq] at hhd
            subst hhd
            simp [probeHeaders, hp]
      | cons q0 pre' =>
        simp only [List.cons_append] at heq
        injection heq with h1 h2
        subst h1
        have hfal := hpre p (List.mem_cons_self p pre')
        have hrest : probeHeaders parse ps = Except.ok hs :=
          (ih hs).mpr ⟨pre', q, post, h2,
            fun x hx => hpre x (List.mem_cons_of_mem _ hx), hhd⟩
        cases hp : parse p with
        | raise tb => rw [hp] at hfal; simp [parseFalsy] at hfal
        | single r =>
          rw [hp] at hfal
          simp only [parseFalsy] at hfal
          simp [probeHeaders, hp, hfal, hrest]
        | coll rs =>
          cases rs with
          | nil => simp [probeHeaders, hp, hrest]
          | cons r rs' => rw [hp] at hfal; simp [parseFalsy] at hfal

theorem probeHeaders_all_fail (parse : String → ParseResult) :
    ∀ l : List String, (∀ p ∈ l, parseHeaders (parse p) = none) →
      ∃ e, probeHeaders parse l = Except.error e := by
  intro l
  induction l with
  | nil => intro _; exact ⟨.indexError, rfl⟩
  | cons p ps ih =>
    intro hall
    have hp := hall p (List.mem_cons_self p ps)
    cases hpp : parse p with
    | raise tb => exact ⟨.raised tb, by simp [probeHeaders, hpp]⟩
    | single r =>
      rw [hpp] at hp
      have hf : r.fields.isEmpty = true := by
        by_contra hf
        simp [parseHeaders, hf] at hp
      obtain ⟨e, he⟩ := ih (fun q hq => hall q (List.mem_cons_of_mem p hq))
      exact ⟨e, by simp [probeHeaders, hpp, hf, he]⟩
    | coll rs =>
      cases rs with
      | nil =>
        obtain ⟨e, he⟩ := ih (fun q hq => hall q (List.mem_cons_of_mem p hq))
        exact ⟨e, by simp [probeHeaders, hpp, he]⟩
      | cons r rs' =>
        rw [hpp] at hp
        simp [parseHeaders] at hp

theorem pipeline_probe_error (size : String → Nat) (parse : String → ParseResult)
    (idOf : Row → String) (file_paths : List String)
    (cpuCount cores_to_reserve : Nat) (are_ids_unique : Bool) (e : PyError)
    (he : probeHeaders parse (sort_file_paths_for_load_balancing size file_paths
      (get_num_tasks cpuCount cores_to_reserve file_paths)) = Except.error e) :
    do_multi_parse_to_csv size parse idOf file_paths cpuCount cores_to_reserve
      are_ids_unique true = Except.error e := by
  unfold do_multi_parse_to_csv
  simp [he, Bind.bind, Except.bind, Except.map]

/-- C6: when headers are requested, `do_multi_parse_to_csv` derives the column
headers by probing files at the front of the load-balanced list in order:
probing succeeds with headers `hs` exactly when some file preceded only by
falsy parser results (empty records or empty collections) yields a non-empty
record whose field names are `hs`; if every probed file fails to yield headers
the probing loop ends in an error; and a probing error is the pipeline's
result — it is surfaced before any worker output or merge output is
produced. -/
theorem header_probe_setup :
    (∀ (parse : String → ParseResult) (l : List String) (hs : List String),
      probeHeaders parse l = Except.ok hs ↔
        ∃ pre p post, l = pre ++ p :: post ∧
          (∀ q ∈ pre, parseFalsy (parse q) = true) ∧
          parseHeaders (parse p) = some hs) ∧
    (∀ (parse : String → ParseResult) (l : List String),
      (∀ p ∈ l, parseHeaders (parse p) = none) →
      ∃ e, probeHeaders parse l = Except.error e) ∧
    (∀ (size : String → Nat) (parse : String → ParseResult) (idOf : Row → String)
        (file_paths : List String) (cpuCount cores_to_reserve : Nat)
        (are_ids_unique : Bool) (e : PyError),
      probeHeaders parse (sort_file_paths_for_load_balancing size file_paths
        (get_num_tasks cpuCount cores_to_reserve file_paths)) = Except.error e →
      do_multi_parse_to_csv size parse idOf file_paths cpuCount cores_to_reserve
        are_ids_unique true = Except.error e) :=
  ⟨fun parse l hs => probeHeaders_ok_iff parse l hs,
   fun parse l h => probeHeaders_all_fail parse l h,
   fun size parse idOf fps c r aiu e he =>
     pipeline_probe_error size parse idOf fps c r aiu e he⟩

/-- Witness for `header_probe_setup`: a parser that raises on every file makes
the two-file pipeline fail with that setup error. -/
theorem header_probe_setup_witness :
    probeHeaders (fun _ => ParseResult.raise "T")
        (sort_file_paths_for_load_balancing (fun _ => 1) ["a", "b"]
          (get_num_tasks 3 1 ["a", "b"])) = Except.error (PyError.raised "T") ∧
    do_multi_parse_to_csv (fun _ => 1) (fun _ => ParseResult.raise "T")
        (fun r => r.headD "") ["a", "b"] 3 1 true true =
      Except.error (PyError.raised "T") :=
  ⟨rfl, header_probe_setup.2.2 (fun _ => 1) (fun _ => ParseResult.raise "T")
    (fun r => r.headD "") ["a", "b"] 3 1 true (PyError.raised "T") rfl⟩

/-! ### Pipeline: glue lemmas -/

theorem take_drop_glue (l : List α) (a b c : Nat) (hab : a ≤ b) (hbc : b ≤ c) :
    (l.drop a).take (b - a) ++ (l.drop b).take (c - b) = (l.drop a).take (c - a) := by
  have h1 : c - a = (b - a) + (c - b) := by omega
  have h2 : a + (b - a) = b := by omega
  rw [h1, List.take_add, List.drop_drop, h2]

theorem flatten_take_drop (l : List α) (f : Nat → Nat)
    (hmono : ∀ i j, i ≤ j → f i ≤ f j) :
    ∀ (m k : Nat),
      ((List.range' k m).map
        (fun i => (l.drop (f i)).take (f (i + 1) - f i))).flatten =
        (l.drop (f k)).take (f (k + m) - f k) := by
  intro m
  induction m with
  | zero => intro k; simp
  | succ m ih =>
    intro k
    rw [List.range'_succ, List.map_cons, List.flatten_cons]
    have hkm : k + 1 + m = k + (m + 1) := by omega
    rw [ih (k + 1), hkm]
    exact take_drop_glue l (f k) (f (k + 1)) (f (k + (m + 1)))
      (hmono k (k + 1) (by omega)) (hmono (k + 1) (k + (m + 1)) (by omega))

theorem slices_flatten (t : Nat) (l : List α) (ht : 1 ≤ t) (htn : t ≤ l.length) :
    ((List.range t).map (fun i =>
      (l.drop (i * (l.length / t) + min i (l.length % t))).take
        ((i + 1) * (l.length / t) + min (i + 1) (l.length % t) -
          (i * (l.length / t) + min i (l.length % t))))).flatten = l := by
  rw [List.range_eq_range',
    flatten_take_drop l (fun x => x * (l.length / t) + min x (l.length % t))
      (fun i j hij => slice_bound_mono (l.length / t) (l.length % t) hij) t 0]
  have hr : l.length % t < t := Nat.mod_lt _ (by omega)
  have hft : t * (l.length / t) + min t (l.length % t) = l.length := by
    rw [Nat.min_eq_right (le_of_lt hr)]
    exact Nat.div_add_mod l.length t
  simp only [Nat.zero_add, Nat.zero_mul, Nat.zero_min, hft]
  simp

theorem flatten_map_flatten (L : List (List α)) (g : α → List β) :
    (L.map (fun sl => (sl.map g).flatten)).flatten = ((L.flatten).map g).flatten := by
  induction L with
  | nil => rfl
  | cons sl L ih =>
    simp [List.map_append, List.flatten_append, ih]

theorem flatten_map_filterMap (L : List (List α)) (g : α → Option β) :
    (L.map (fun sl => sl.filterMap g)).flatten = (L.flatten).filterMap g := by
  induction L with
  | nil => rfl
  | cons sl L ih =>
    rw [List.map_cons, List.flatten_cons, List.flatten_cons,
      List.filterMap_append, ih]

theorem sort_fp_length (size : α → Nat) (l : List α) (t : Nat) (ht : 1 ≤ t) :
    (sort_file_paths_for_load_balancing size l t).length = l.length := by
  rw [load_balance_code_eq_spec size l t ht]
  exact (loadBalanceSpec_perm size l t ht).length_eq

theorem sort_fp_nil (size : α → Nat) (t : Nat) :
    sort_file_paths_for_load_balancing size ([] : List α) t = [] := by
  have h1 : sortDesc size ([] : List α) = [] := rfl
  have h2 : chunkList t ([] : List α) = [] := rfl
  simp only [sort_file_paths_for_load_balancing, h1, h2, List.filterMap_nil]
  rw [List.flatMap_def]
  apply List.flatten_eq_nil_iff.mpr
  intro l hl
  obtain ⟨j, -, rfl⟩ := List.mem_map.mp hl
  rfl

theorem pipeline_workerFiles_getElem (parse : String → ParseResult)
    (sorted : List String) (t : Nat) (csv_headers : Option (List String))
    (g : Nat × (Nat × Nat) → WorkerFiles) (i : Nat) (hi : i < t) :
    ((sliceList t sorted.length).enum.map g)[i]? =
      some (g (i, (i * (sorted.length / t) + min i (sorted.length % t),
        (i + 1) * (sorted.length / t) + min (i + 1) (sorted.length % t)))) := by
  rw [List.getElem?_map, List.getElem?_enum, sliceList_eq_map_min, List.getElem?_map,
    List.getElem?_range hi]
  rfl

theorem pipeline_workerFiles_getD (g : Nat × (Nat × Nat) → WorkerFiles)
    (t n i : Nat) (hi : i < t) :
    ((sliceList t n).enum.map g)[i]? =
      some (g (i, (sliceList t n).getD i (0, 0))) := by
  have hlen : i < (sliceList t n).length := by rw [sliceList_length]; exact hi
  rw [List.getElem?_map, List.getElem?_enum, List.getElem?_eq_getElem hlen]
  rw [List.getD_eq_getElem?_getD, List.getElem?_eq_getElem hlen]
  rfl

theorem pipeline_slices_filterMap (g : String → Option Row) (sorted : List String)
    (t : Nat) (ht : 1 ≤ t) (htn : t ≤ sorted.length) :
    ((List.range t).map (fun i =>
      ((sorted.drop (((sliceList t sorted.length).getD i (0, 0)).1)).take
        (((sliceList t sorted.length).getD i (0, 0)).2 -
          ((sliceList t sorted.length).getD i (0, 0)).1)).filterMap g)).flatten =
      sorted.filterMap g := by
  have hmap : (List.range t).map (fun i =>
      ((sorted.drop (((sliceList t sorted.length).getD i (0, 0)).1)).take
        (((sliceList t sorted.length).getD i (0, 0)).2 -
          ((sliceList t sorted.length).getD i (0, 0)).1)).filterMap g) =
      ((List.range t).map (fun i =>
        (sorted.drop (i * (sorted.length / t) + min i (sorted.length % t))).take
          ((i + 1) * (sorted.length / t) + min (i + 1) (sorted.length % t) -
            (i * (sorted.length / t) + min i (sorted.length % t))))).map
        (fun sl => sl.filterMap g) := by
    rw [List.map_map]
    apply List.map_congr_left
    intro i hi
    rw [sliceList_getD t sorted.length i (List.mem_range.mp hi)]
    rfl
  rw [hmap, flatten_map_filterMap, slices_flatten t sorted ht htn]

theorem pipeline_slices_map_flatten (g : String → List Row) (sorted : List String)
    (t : Nat) (ht : 1 ≤ t) (htn : t ≤ sorted.length) :
    ((List.range t).map (fun i =>
      (((sorted.drop (((sliceList t sorted.length).getD i (0, 0)).1)).take
        (((sliceList t sorted.length).getD i (0, 0)).2 -
          ((sliceList t sorted.length).getD i (0, 0)).1)).map g).flatten)).flatten =
      ((sorted.map g)).flatten := by
  have hmap : (List.range t).map (fun i =>
      (((sorted.drop (((sliceList t sorted.length).getD i (0, 0)).1)).take
        (((sliceList t sorted.length).getD i (0, 0)).2 -
          ((sliceList t sorted.length).getD i (0, 0)).1)).map g).flatten) =
      ((List.range t).map (fun i =>
        (sorted.drop (i * (sorted.length / t) + min i (sorted.length % t))).take
          ((i + 1) * (sorted.length / t) + min (i + 1) (sorted.length % t) -
            (i * (sorted.length / t) + min i (sorted.length % t))))).map
        (fun sl => (sl.map g).flatten) := by
    rw [List.map_map]
    apply List.map_congr_left
    intro i hi
    rw [sliceList_getD t sorted.length i (List.mem_range.mp hi)]
    rfl
  rw [hmap, flatten_map_flatten, slices_flatten t sorted ht htn]

theorem pipeline_err_merge (parse : String → ParseResult) (sorted : List String)
    (t : Nat) (ht : 1 ≤ t) (htn : t ≤ sorted.length)
    (csv_headers : Option (List String)) (idOf : Row → String) :
    merge_csv_files (fun i =>
      ((((sliceList t sorted.length).enum.map fun p =>
        dump_into_csv_task parse sorted p.2.1 p.2.2 csv_headers)[i]?).map
          WorkerFiles.errRows))
      (List.range t) true none idOf =
      Except.ok (["file", "error"] :: sorted.filterMap (errRowOf parse)) := by
  have hfs : ∀ q ∈ List.range t,
      ((((sliceList t sorted.length).enum.map fun p =>
        dump_into_csv_task parse sorted p.2.1 p.2.2 csv_headers)[q]?).map
          WorkerFiles.errRows) =
      some ((dump_into_csv_task parse sorted
        ((sliceList t sorted.length).getD q (0, 0)).1
        ((sliceList t sorted.length).getD q (0, 0)).2 csv_headers).errRows) := by
    intro q hq
    rw [pipeline_workerFiles_getD
      (fun p => dump_into_csv_task parse sorted p.2.1 p.2.2 csv_headers)
      t sorted.length q (List.mem_range.mp hq)]
    rfl
  have hne : ∀ q ∈ List.range t, (dump_into_csv_task parse sorted
      ((sliceList t sorted.length).getD q (0, 0)).1
      ((sliceList t sorted.length).getD q (0, 0)).2 csv_headers).errRows ≠ [] := by
    intro q _
    rw [dump_into_csv_task_eq]
    simp
  obtain ⟨t', rfl⟩ : ∃ t', t = t' + 1 := ⟨t - 1, by omega⟩
  have hrange : List.range (t' + 1) = 0 :: List.range' 1 t' := by
    rw [List.range_eq_range', List.range'_succ]
  unfold merge_csv_files
  rw [hrange] at hfs hne ⊢
  rw [mergeFilesGo_headers _ none.isSome idOf
    (fun q => (dump_into_csv_task parse sorted
      ((sliceList (t' + 1) sorted.length).getD q (0, 0)).1
      ((sliceList (t' + 1) sorted.length).getD q (0, 0)).2 csv_headers).errRows)
    0 (List.range' 1 t') hfs hne []]
  congr 1
  rw [← hrange]
  have htake : ((dump_into_csv_task parse sorted
      ((sliceList (t' + 1) sorted.length).getD 0 (0, 0)).1
      ((sliceList (t' + 1) sorted.length).getD 0 (0, 0)).2 csv_headers).errRows).take 1 =
      [["file", "error"]] := by
    rw [dump_into_csv_task_eq]
    rfl
  have htail : (List.range (t' + 1)).map (fun q => ((dump_into_csv_task parse sorted
      ((sliceList (t' + 1) sorted.length).getD q (0, 0)).1
      ((sliceList (t' + 1) sorted.length).getD q (0, 0)).2 csv_headers).errRows).tail) =
      (List.range (t' + 1)).map (fun q =>
        ((sorted.drop (((sliceList (t' + 1) sorted.length).getD q (0, 0)).1)).take
          (((sliceList (t' + 1) sorted.length).getD q (0, 0)).2 -
            ((sliceList (t' + 1) sorted.length).getD q (0, 0)).1)).filterMap
              (errRowOf parse)) := by
    apply List.map_congr_left
    intro q _
    rw [dump_into_csv_task_eq]
    rfl
  rw [htake, htail, pipeline_slices_filterMap (errRowOf parse) sorted (t' + 1) ht htn]
  simp [processBody]

theorem pipeline_out_merge_nohdr (parse : String → ParseResult)
    (sorted : List String) (t : Nat) (ht : 1 ≤ t) (htn : t ≤ sorted.length)
    (idOf : Row → String) :
    merge_csv_files (fun i =>
      ((((sliceList t sorted.length).enum.map fun p =>
        dump_into_csv_task parse sorted p.2.1 p.2.2 none)[i]?).map
          WorkerFiles.outRows))
      (List.range t) false none idOf =
      Except.ok ((sorted.map (outRowsOf parse)).flatten) := by
  have hfs : ∀ q ∈ List.range t,
      ((((sliceList t sorted.length).enum.map fun p =>
        dump_into_csv_task parse sorted p.2.1 p.2.2 none)[q]?).map
          WorkerFiles.outRows) =
      some ((dump_into_csv_task parse sorted
        ((sliceList t sorted.length).getD q (0, 0)).1
        ((sliceList t sorted.length).getD q (0, 0)).2 none).outRows) := by
    intro q hq
    rw [pipeline_workerFiles_getD
      (fun p => dump_into_csv_task parse sorted p.2.1 p.2.2 none)
      t sorted.length q (List.mem_range.mp hq)]
    rfl
  unfold merge_csv_files
  rw [mergeFilesGo_no_headers _ none.isSome idOf
    (fun q => (dump_into_csv_task parse sorted
      ((sliceList t sorted.length).getD q (0, 0)).1
      ((sliceList t sorted.length).getD q (0, 0)).2 none).outRows)
    (List.range t) hfs false []]
  have hmap : (List.range t).map (fun q => (dump_into_csv_task parse sorted
      ((sliceList t sorted.length).getD q (0, 0)).1
      ((sliceList t sorted.length).getD q (0, 0)).2 none).outRows) =
      (List.range t).map (fun q =>
        (((sorted.drop (((sliceList t sorted.length).getD q (0, 0)).1)).take
          (((sliceList t sorted.length).getD q (0, 0)).2 -
            ((sliceList t sorted.length).getD q (0, 0)).1)).map
              (outRowsOf parse)).flatten) := by
    apply List.map_congr_left
    intro q _
    rw [dump_into_csv_task_eq]
    rfl
  rw [hmap, pipeline_slices_map_flatten (outRowsOf parse) sorted t ht htn]
  simp [processBody]

theorem pipeline_out_merge_hdr (parse : String → ParseResult)
    (sorted : List String) (t : Nat) (ht : 1 ≤ t) (htn : t ≤ sorted.length)
    (hs : List String) (ec : Option (List String)) (idOf : Row → String) :
    merge_csv_files (fun i =>
      ((((sliceList t sorted.length).enum.map fun p =>
        dump_into_csv_task parse sorted p.2.1 p.2.2 (some hs))[i]?).map
          WorkerFiles.outRows))
      (List.range t) true ec idOf =
      Except.ok (hs :: (processBody ec.isSome idOf
        ((sorted.map (outRowsOf parse)).flatten) []).1) := by
  have hfs : ∀ q ∈ List.range t,
      ((((sliceList t sorted.length).enum.map fun p =>
        dump_into_csv_task parse sorted p.2.1 p.2.2 (some hs))[q]?).map
          WorkerFiles.outRows) =
      some ((dump_into_csv_task parse sorted
        ((sliceList t sorted.length).getD q (0, 0)).1
        ((sliceList t sorted.length).getD q (0, 0)).2 (some hs)).outRows) := by
    intro q hq
    rw [pipeline_workerFiles_getD
      (fun p => dump_into_csv_task parse sorted p.2.1 p.2.2 (some hs))
      t sorted.length q (List.mem_range.mp hq)]
    rfl
  have hne : ∀ q ∈ List.range t, (dump_into_csv_task parse sorted
      ((sliceList t sorted.length).getD q (0, 0)).1
      ((sliceList t sorted.length).getD q (0, 0)).2 (some hs)).outRows ≠ [] := by
    intro q _
    rw [dump_into_csv_task_eq]
    simp
  obtain ⟨t', rfl⟩ : ∃ t', t = t' + 1 := ⟨t - 1, by omega⟩
  have hrange : List.range (t' + 1) = 0 :: List.range' 1 t' := by
    rw [List.range_eq_range', List.range'_succ]
  unfold merge_csv_files
  rw [hrange] at hfs hne ⊢
  rw [mergeFilesGo_headers _ ec.isSome idOf
    (fun q => (dump_into_csv_task parse sorted
      ((sliceList (t' + 1) sorted.length).getD q (0, 0)).1
      ((sliceList (t' + 1) sorted.length).getD q (0, 0)).2 (some hs)).outRows)
    0 (List.range' 1 t') hfs hne []]
  congr 1
  rw [← hrange]
  have htake : ((dump_into_csv_task parse sorted
      ((sliceList (t' + 1) sorted.length).getD 0 (0, 0)).1
      ((sliceList (t' + 1) sorted.length).getD 0 (0, 0)).2 (some hs)).outRows).take 1 =
      [hs] := by
    rw [dump_into_csv_task_eq]
    rfl
  have htail : (List.range (t' + 1)).map (fun q => ((dump_into_csv_task parse sorted
      ((sliceList (t' + 1) sorted.length).getD q (0, 0)).1
      ((sliceList (t' + 1) sorted.length).getD q (0, 0)).2 (some hs)).outRows).tail) =
      (List.range (t' + 1)).map (fun q =>
        (((sorted.drop (((sliceList (t' + 1) sorted.length).getD q (0, 0)).1)).take
          (((sliceList (t' + 1) sorted.length).getD q (0, 0)).2 -
            ((sliceList (t' + 1) sorted.length).getD q (0, 0)).1)).map
              (outRowsOf parse)).flatten) := by
    apply List.map_congr_left
    intro q _
    rw [dump_into_csv_task_eq]
    rfl
  rw [htake, htail,
    pipeline_slices_map_flatten (outRowsOf parse) sorted (t' + 1) ht htn]
  rfl

theorem pipeline_ok_ne_nil (size : String → Nat) (parse : String → ParseResult)
    (idOf : Row → String) (file_paths : List String)
    (cpuCount cores_to_reserve : Nat) (aiu ih : Bool) (res : List Row × List Row)
    (hok : do_multi_parse_to_csv size parse idOf file_paths cpuCount
      cores_to_reserve aiu ih = Except.ok res) :
    file_paths ≠ [] := by
  intro hfp
  subst hfp
  cases ih <;>
    simp [do_multi_parse_to_csv, sort_fp_nil, do_multi_process_nil, probeHeaders,
      Bind.bind, Except.bind, Except.map] at hok

/-- Counterexample to C5 as stated: a run of `do_multi_parse_to_csv` with
`are_ids_unique = True` and `include_headers = False` in which both files parse
to records with identity value `"1"`, yet the final output file contains the
identity twice — the merge of per-worker output files did not deduplicate,
because with `include_headers = False` the record class `cls` is `None` and
`entry_class = cls if are_ids_unique else None` passes `None`. -/
theorem pipeline_dedup_counterexample :
    do_multi_parse_to_csv (fun _ => 1)
        (fun _ => ParseResult.single ⟨["id"], ["1"]⟩) (fun r => r.headD "")
        ["a", "b"] 3 1 true false =
      Except.ok ([["1"], ["1"]], [["file", "error"]]) ∧
    ([["1"], ["1"]] : List Row).countP (fun r => r.headD "" == "1") = 2 :=
  ⟨rfl, rfl⟩

/-- C5 as amended: in every successful pipeline run, deduplication by the
record's identity field is applied to the merge of per-worker output files
exactly when `are_ids_unique = True` AND `include_headers = True` (when
`include_headers = False` the record class is `None`, so no dedup occurs and
the final output is the plain concatenation of all parsed records' rows in
worker order); the merge of per-worker error files never deduplicates — the
final error file holds the errors header followed by one row per failed parse,
in processing order. -/
theorem pipeline_dedup_amended (size : String → Nat) (parse : String → ParseResult)
    (idOf : Row → String) (file_paths : List String)
    (cpuCount cores_to_reserve : Nat) (are_ids_unique include_headers : Bool)
    (out err : List Row)
    (hok : do_multi_parse_to_csv size parse idOf file_paths cpuCount
      cores_to_reserve are_ids_unique include_headers = Except.ok (out, err)) :
    (are_ids_unique = true → include_headers = true →
      ∃ hs body, out = hs :: body ∧
        ∀ v, body.countP (fun r => idOf r == v) ≤ 1) ∧
    (include_headers = false →
      out = ((sort_file_paths_for_load_balancing size file_paths
        (get_num_tasks cpuCount cores_to_reserve file_paths)).map
          (outRowsOf parse)).flatten) ∧
    err = ["file", "error"] ::
      (sort_file_paths_for_load_balancing size file_paths
        (get_num_tasks cpuCount cores_to_reserve file_paths)).filterMap
          (errRowOf parse) := by
  have hfpne : file_paths ≠ [] := pipeline_ok_ne_nil size parse idOf file_paths
    cpuCount cores_to_reserve are_ids_unique include_headers (out, err) hok
  have hlen1 : 0 < file_paths.length := List.length_pos.mpr hfpne
  simp only [do_multi_parse_to_csv] at hok
  set t := get_num_tasks cpuCount cores_to_reserve file_paths with hT
  set sorted := sort_file_paths_for_load_balancing size file_paths t with hS
  have ht : 1 ≤ t := by rw [hT]; unfold get_num_tasks; omega
  have hslen : sorted.length = file_paths.length :=
    sort_fp_length size file_paths t ht
  have htlen : t ≤ file_paths.length := by rw [hT]; unfold get_num_tasks; omega
  have htn : t ≤ sorted.length := by rw [hslen]; exact htlen
  have ht0 : ¬ t = 0 := by omega
  have hnum : get_num_tasks cpuCount cores_to_reserve sorted = t := by
    rw [hT]
    unfold get_num_tasks
    rw [hslen]
  have hdmp : ∀ ch : Option (List String),
      do_multi_process sorted
        (fun d s e _ => dump_into_csv_task parse d s e ch)
        cpuCount cores_to_reserve =
      Except.ok ((sliceList t sorted.length).enum.map fun p =>
        dump_into_csv_task parse sorted p.2.1 p.2.2 ch) := by
    intro ch
    simp [do_multi_process, hnum, get_multiprocess_slice_ranges, ht0,
      Bind.bind, Except.bind]
  cases include_headers with
  | false =>
    simp only [Bool.false_eq_true, if_false, Bind.bind, Except.bind] at hok
    rw [hdmp none] at hok
    simp only [ite_self] at hok
    rw [pipeline_out_merge_nohdr parse sorted t ht htn idOf] at hok
    rw [pipeline_err_merge parse sorted t ht htn none idOf] at hok
    simp only [Except.ok.injEq, Prod.mk.injEq] at hok
    obtain ⟨ho, he⟩ := hok
    exact ⟨fun _ hcon => absurd hcon (by simp), fun _ => ho.symm, he.symm⟩
  | true =>
    rw [if_pos rfl] at hok
    simp only [Bind.bind, Except.bind] at hok
    cases hpr : probeHeaders parse sorted with
    | error e => rw [hpr] at hok; simp [Except.map] at hok
    | ok hs =>
      rw [hpr] at hok
      simp only [Except.map, Bind.bind, Except.bind] at hok
      rw [hdmp (some hs)] at hok
      simp only [Bind.bind, Except.bind] at hok
      rw [pipeline_out_merge_hdr parse sorted t ht htn hs
        (if are_ids_unique then some hs else none) idOf] at hok
      simp only [Bind.bind, Except.bind] at hok
      rw [pipeline_err_merge parse sorted t ht htn (some hs) idOf] at hok
      simp only [Except.ok.injEq, Prod.mk.injEq] at hok
      obtain ⟨ho, he⟩ := hok
      refine ⟨?_, fun hcon => absurd hcon (by simp), he.symm⟩
      intro haiu _
      subst haiu
      rw [if_pos rfl] at ho
      refine ⟨hs, (processBody (some hs).isSome idOf
        ((sorted.map (outRowsOf parse)).flatten) []).1, ho.symm, ?_⟩
      intro v
      simp only [Option.isSome_some, processBody, if_pos]
      rw [dedupGo_countP idOf ((sorted.map (outRowsOf parse)).flatten) v]
      by_cases ha : ((sorted.map (outRowsOf parse)).flatten).any
          (fun r => idOf r == v) = true
      · rw [if_pos ha]
      · rw [if_neg ha]; omega

/-- Witness for `pipeline_dedup_amended`: a dedup-and-headers run over two
files sharing the identity `"1"` yields the header and a single data row, and
the error file holds only its header. -/
theorem pipeline_dedup_amended_witness :
    do_multi_parse_to_csv (fun _ => 1)
        (fun _ => ParseResult.single ⟨["id"], ["1"]⟩) (fun r => r.headD "")
        ["a", "b"] 3 1 true true =
      Except.ok ([["id"], ["1"]], [["file", "error"]]) ∧
    ((true = true → true = true →
      ∃ hs body, ([["id"], ["1"]] : List Row) = hs :: body ∧
        ∀ v, body.countP (fun r => r.headD "" == v) ≤ 1) ∧
    (true = false →
      ([["id"], ["1"]] : List Row) =
        ((sort_file_paths_for_load_balancing (fun _ => 1) ["a", "b"]
          (get_num_tasks 3 1 ["a", "b"])).map
            (outRowsOf (fun _ => ParseResult.single ⟨["id"], ["1"]⟩))).flatten) ∧
    ([["file", "error"]] : List Row) = ["file", "error"] ::
      (sort_file_paths_for_load_balancing (fun _ => 1) ["a", "b"]
        (get_num_tasks 3 1 ["a", "b"])).filterMap
          (errRowOf (fun _ => ParseResult.single ⟨["id"], ["1"]⟩))) :=
  ⟨rfl, pipeline_dedup_amended (fun _ => 1)
    (fun _ => ParseResult.single ⟨["id"], ["1"]⟩) (fun r => r.headD "")
    ["a", "b"] 3 1 true true [["id"], ["1"]] [["file", "error"]] rfl⟩

end Dredge
